import Mathlib

set_option maxRecDepth 10000

/-!
Verification development for the device-details reprocessor
(`migrate_client_credentials.mjs`, third script: the CSV → key-value-store
device-name backfill job).

The JavaScript source is shallowly embedded as executable Lean functions.
Pure helpers (`getOsFromSourceApp`, `isValidRow`, `shouldUpdateItem`,
`updateItemWithOs`) are translated directly.  The stateful streaming loop
(`processCsvFile` / `processRow`) is embedded as explicit state passing over a
`RunState`; the asynchronous settlement of dispatched store updates is made
explicit through two oracles:

* `fail : Nat → Bool` — whether the store update with dispatch index `d`
  ultimately rejects (store error) or fulfills;
* `sched : Nat → Nat → Bool` — `sched i d` holds when the update with dispatch
  index `d` settles before the row with stream index `i` is admitted
  (the event-loop may run update continuations while the next CSV row is being
  awaited).  `Promise.allSettled` at a window boundary settles everything that
  is still pending, irrespective of `sched`.

The model additionally records ghost history: the per-row `UpdateOutcome`
ledger, the list of store calls issued, the emitted log lines, and a trace of
start/settle events for concurrency claims.  These record what the code does;
they do not influence control flow.
-/

namespace DeviceReproc

/-- A CSV row restricted to the three columns the script reads.  A missing
column is represented by the empty string, matching JS falsiness of both
`undefined` and `""` in `isValidRow`. -/
structure Row where
  suid : String
  zid : String
  sourceApp : String
deriving DecidableEq

/-- Boolean substring containment on strings, embedding JavaScript
`String.prototype.includes`. -/
def jsIncludes (s pat : String) : Bool :=
  decide (pat.data <:+: s.data)

/-- Embeds `String.prototype.toLowerCase` character by character; it agrees
with JS on the ASCII strings this program handles. -/
def jsToLower (s : String) : String :=
  ⟨s.data.map Char.toLower⟩

/-- Embeds `getOsFromSourceApp` (source lines 452-457): lowercase the input,
return "Mac" if it contains "mac", else "Windows" if it contains "windows",
else null (`none`). -/
def getOsFromSourceApp (sourceApp : String) : Option String :=
  let lower := jsToLower sourceApp
  if jsIncludes lower "mac" then some "Mac"
  else if jsIncludes lower "windows" then some "Windows"
  else none

/-- Embeds `isValidRow` (source lines 459-462): all three fields truthy
(non-empty, since they are strings). -/
def isValidRow (row : Row) : Bool :=
  row.suid ≠ "" && row.zid ≠ "" && row.sourceApp ≠ ""

/-- Embeds `shouldUpdateItem` (source lines 464-466): the device is processed
only when its `zid` is not yet in the `processedDevices` set.  The JS `Set` is
modelled as a duplicate-free list. -/
def shouldUpdateItem (processedDevices : List String) (zid : String) : Bool :=
  !(processedDevices.contains zid)

/-- Embeds the environment-derived table name `` `${ENV}-user` `` (source
line 441). -/
def TABLE_NAME (envName : String) : String :=
  envName ++ "-user"

/-- The DynamoDB update request built by `updateItemWithOs` (source lines
468-489), with the fixed expression `SET #name = :name, #os = :os` resolved:
`nameValue` is the value written to attribute `name` and `osValue` the value
written to attribute `os`, at key `(pk, sk)`. -/
structure UpdateParams where
  tableName : String
  pk : String
  sk : String
  nameValue : String
  osValue : String
deriving DecidableEq

/-- Embeds `updateItemWithOs` (source lines 468-489): builds the display name
`Desktop Agent (<os>)` and the unconditional partial-update request keyed by
`(suid, "device#" ++ zid)` setting `name` and the lowercased `os`. -/
def updateItemWithOs (envName suid zid osValue : String) : UpdateParams :=
  let newName := "Desktop Agent (" ++ osValue ++ ")"
  { tableName := TABLE_NAME envName
    pk := suid
    sk := "device#" ++ zid
    nameValue := newName
    osValue := jsToLower osValue }

/-- An item of the external store: the two attributes the script writes, plus
the remaining attributes (opaque to the script) as an association list. -/
structure Item where
  name : Option String
  os : Option String
  rest : List (String × String)
deriving DecidableEq

/-- The external key-value store, as a total map from composite key
`(pk, sk)` to item state. -/
def Store : Type := String × String → Item

/-- Semantics of executing one update request against the store: the DynamoDB
`SET` expression overwrites exactly the `name` and `os` attributes of the
addressed item and touches nothing else. -/
def applyUpdate (store : Store) (p : UpdateParams) : Store :=
  fun k =>
    if k = (p.pk, p.sk) then
      { store k with name := some p.nameValue, os := some p.osValue }
    else store k

/-- The per-row result recorded by the pipeline (the spec's `UpdateOutcome`).
`updated` and `failed` are the two settlements of a dispatched store update;
the three skip outcomes make no store call. -/
inductive Outcome where
  | updated
  | failed
  | skippedInvalid
  | skippedNoOs
  | skippedDuplicate
deriving DecidableEq

/-- One line emitted through `logger`, abstracted to its call site and
arguments (source lines 445-450 define the logger; call sites are in
`processRow`, `processCsvFile` and `main`). -/
inductive LogEvent where
  | infoProcessing (suid zid sourceApp : String)
  | infoSkipDup (suid zid : String)
  | infoNoOs (suid zid : String)
  | warnInvalid (row : Row)
  | infoProgress (n : Nat)
  | infoCsvComplete (processed updated : Nat)
  | errFileNotFound (path : String)
  | infoStarting
  | infoSummaryHeader
  | infoSummaryProcessed (n : Nat)
  | infoSummaryUpdated (n : Nat)
  | infoDevicesInSet (n : Nat)
  | infoExecTime
deriving DecidableEq

/-- Whether a log line was emitted through `logger.error`. -/
def LogEvent.isError : LogEvent → Bool
  | LogEvent.errFileNotFound _ => true
  | _ => false

/-- Concurrency trace event: a store-update task starting (its request sent),
settling (fulfilled or rejected), or a window's `Promise.allSettled`
returning. -/
inductive Ev where
  | start (d : Nat)
  | settle (d : Nat)
  | windowDone
deriving DecidableEq

/-- One step of the outstanding-task computation over the event trace. -/
def evStep (acc : List Nat) : Ev → List Nat
  | Ev.start d => acc ++ [d]
  | Ev.settle d => acc.erase d
  | Ev.windowDone => acc

/-- Dispatch indices of the store-update tasks still outstanding (started,
not yet settled) after the given event trace. -/
def openTasks (evs : List Ev) : List Nat :=
  evs.foldl evStep []

/-- The arguments of one `updateItemWithOs` invocation, i.e. one mutating
store call. -/
structure StoreCall where
  suid : String
  zid : String
  osValue : String
deriving DecidableEq

/-- State of one run of `processCsvFile`.  The first seven fields embed the
program's own state (`processedDevices`, the outstanding update promises, the
`batch` array length and its count of will-fulfill-updated members, and the
counters); `outcomes`, `calls`, `logs` and `events` are ghost history
recording what happened. -/
structure RunState where
  processedDevices : List String
  pending : List (Nat × String)
  batchLen : Nat
  batchSucc : Nat
  dispatchCount : Nat
  processedCount : Nat
  updatedCount : Nat
  outcomes : List Outcome
  calls : List StoreCall
  logs : List LogEvent
  events : List Ev
deriving DecidableEq

/-- The state at run start: empty dedup set, nothing pending, all counters
zero. -/
def initState : RunState :=
  { processedDevices := []
    pending := []
    batchLen := 0
    batchSucc := 0
    dispatchCount := 0
    processedCount := 0
    updatedCount := 0
    outcomes := []
    calls := []
    logs := []
    events := [] }

/-- Adds a `zid` to the dedup set (`Set.prototype.add`): no duplicate is
inserted. -/
def addDevice (s : List String) (z : String) : List String :=
  if s.contains z then s else s ++ [z]

/-- Adds each of the given zids to the dedup set in order. -/
def addDevices (s : List String) (zs : List String) : List String :=
  zs.foldl addDevice s

/-- Settles every pending update task selected by `c`: the task leaves the
pending pool, and — exactly when its update fulfilled (`!fail d`) — the
continuation after the `await` in `processRow` runs `processedDevices.add(zid)`
(source line 509).  A rejected task settles without marking the tracker. -/
def complete (fail : Nat → Bool) (c : Nat → Bool) (st : RunState) : RunState :=
  let done := st.pending.filter (fun p => c p.1)
  { st with
      pending := st.pending.filter (fun p => !c p.1)
      processedDevices :=
        addDevices st.processedDevices ((done.filter (fun p => !fail p.1)).map Prod.snd)
      events := st.events ++ done.map (fun p => Ev.settle p.1) }

/-- Embeds the synchronous prefix of `processRow` (source lines 491-511), the
part that runs when the promise is pushed into `batch`: log the row, check the
dedup tracker, classify the OS, and — for an eligible row — issue the store
call and leave the task pending.  The eventual settlement (the `add` on
success) is modelled by `complete`.  The eventual outcome of a dispatched task
is determined by the `fail` oracle at its dispatch index and is recorded in
the ghost outcome ledger at admission. -/
def processRow (fail : Nat → Bool) (r : Row) (st : RunState) : RunState :=
  let logs := st.logs ++ [LogEvent.infoProcessing r.suid r.zid r.sourceApp]
  if !(shouldUpdateItem st.processedDevices r.zid) then
    { st with
        logs := logs ++ [LogEvent.infoSkipDup r.suid r.zid]
        outcomes := st.outcomes ++ [Outcome.skippedDuplicate]
        batchLen := st.batchLen + 1 }
  else
    match getOsFromSourceApp r.sourceApp with
    | none =>
        { st with
            logs := logs ++ [LogEvent.infoNoOs r.suid r.zid]
            outcomes := st.outcomes ++ [Outcome.skippedNoOs]
            batchLen := st.batchLen + 1 }
    | some os =>
        let d := st.dispatchCount
        { st with
            logs := logs
            outcomes := st.outcomes ++ [if fail d then Outcome.failed else Outcome.updated]
            calls := st.calls ++ [{ suid := r.suid, zid := r.zid, osValue := os }]
            pending := st.pending ++ [(d, r.zid)]
            dispatchCount := d + 1
            batchLen := st.batchLen + 1
            batchSucc := st.batchSucc + (if fail d then 0 else 1)
            events := st.events ++ [Ev.start d] }

/-- Embeds `await Promise.allSettled(batch)` followed by the fulfilled-count
fold (source lines 530-534 and 543-548): every still-pending update settles,
the updated counter absorbs the window's fulfilled `{updated: true}` results,
and the batch is cleared. -/
def flush (fail : Nat → Bool) (st : RunState) : RunState :=
  let st := complete fail (fun _ => true) st
  { st with
      updatedCount := st.updatedCount + st.batchSucc
      batchLen := 0
      batchSucc := 0
      events := st.events ++ [Ev.windowDone] }

/-- Whether `batch.length >= CONCURRENCY_LIMIT` holds (source line 529).
`none` models `CONCURRENCY_LIMIT = NaN`, for which the comparison is false at
every length. -/
def windowFull (W : Option Nat) (len : Nat) : Bool :=
  match W with
  | some w => decide (len ≥ w)
  | none => false

/-- One iteration of the `for await` loop of `processCsvFile` (source lines
520-540) for the row at stream index `i`: pending tasks scheduled by `sched`
settle while the next row is awaited, the processed counter increments, an
invalid row is logged and skipped (`continue`, so no progress check), and an
eligible row is admitted, with a full window flushed and the periodic progress
line logged. -/
def step (W : Option Nat) (fail : Nat → Bool) (sched : Nat → Nat → Bool)
    (i : Nat) (r : Row) (st : RunState) : RunState :=
  let st := complete fail (sched i) st
  let st := { st with processedCount := st.processedCount + 1 }
  if !(isValidRow r) then
    { st with
        logs := st.logs ++ [LogEvent.warnInvalid r]
        outcomes := st.outcomes ++ [Outcome.skippedInvalid] }
  else
    let st := processRow fail r st
    let st := if windowFull W st.batchLen then flush fail st else st
    if st.processedCount % 1000 == 0 then
      { st with logs := st.logs ++ [LogEvent.infoProgress st.processedCount] }
    else st

/-- Runs the stream loop over the remaining rows, `i` being the stream index
of the first of them. -/
def runRows (W : Option Nat) (fail : Nat → Bool) (sched : Nat → Nat → Bool) :
    List Row → Nat → RunState → RunState
  | [], _, st => st
  | r :: rs, i, st => runRows W fail sched rs (i + 1) (step W fail sched i r st)

/-- Embeds `processCsvFile` (source lines 513-554): run the stream loop from
the initial state, flush the remaining partial window if any, and log the
completion line. -/
def processCsvFile (W : Option Nat) (fail : Nat → Bool) (sched : Nat → Nat → Bool)
    (rows : List Row) : RunState :=
  let st := runRows W fail sched rows 0 initState
  let st := if st.batchLen > 0 then flush fail st else st
  { st with logs := st.logs ++ [LogEvent.infoCsvComplete st.processedCount st.updatedCount] }

/-- Numeric value of a digit string. -/
def digitsToNat (ds : List Char) : Nat :=
  ds.foldl (fun a c => a * 10 + (c.toNat - 48)) 0

/-- Embeds `parseInt` for the strings the configuration surface can supply:
the maximal leading run of decimal digits is parsed; if there is none, the
result is `NaN` (`none`).  Radix prefixes, signs and leading whitespace are
not modelled; the strings considered in the claims have neither. -/
def jsParseInt (s : String) : Option Nat :=
  let ds := s.data.takeWhile Char.isDigit
  if ds.isEmpty then none else some (digitsToNat ds)

/-- Embeds `x || dflt` on an optional environment string: `undefined` and the
empty string are falsy. -/
def jsOr (v : Option String) (dflt : String) : String :=
  match v with
  | none => dflt
  | some s => if s = "" then dflt else s

/-- Embeds `CONCURRENCY_LIMIT = parseInt(process.env.CONCURRENCY_LIMIT || "20")`
(source line 442); `none` is `NaN`. -/
def CONCURRENCY_LIMIT (envVar : Option String) : Option Nat :=
  jsParseInt (jsOr envVar "20")

/-- Observable result of the whole process: the exit code passed to
`process.exit`, the log stream, and the store calls issued. -/
structure MainResult where
  exitCode : Nat
  logs : List LogEvent
  calls : List StoreCall
deriving DecidableEq

/-- Embeds `main` (source lines 556-595): a missing input file is logged as an
error and the process exits with code 1 before any store call; otherwise the
CSV run executes, the summary is logged and the process exits with code 0.
The model's run function is total, so the `catch` branch for unhandled
exceptions is unreachable along these paths. -/
def main (fileExists : Bool) (filePath : String) (W : Option Nat)
    (fail : Nat → Bool) (sched : Nat → Nat → Bool) (rows : List Row) : MainResult :=
  if !fileExists then
    { exitCode := 1
      logs := [LogEvent.errFileNotFound filePath]
      calls := [] }
  else
    let st := processCsvFile W fail sched rows
    { exitCode := 0
      logs := [LogEvent.infoStarting] ++ st.logs
        ++ [LogEvent.infoSummaryHeader,
            LogEvent.infoSummaryProcessed st.processedCount,
            LogEvent.infoSummaryUpdated st.updatedCount,
            LogEvent.infoDevicesInSet st.processedDevices.length,
            LogEvent.infoExecTime]
      calls := st.calls }

/-- The failure oracle of a run in which every store update fulfills. -/
def noFailures : Nat → Bool := fun _ => false

/-- The settlement schedule in which every outstanding update settles before
the next row is admitted (store latency below row-read latency). -/
def seqSchedule : Nat → Nat → Bool := fun _ _ => true

/-- The settlement schedule in which no update settles before a window
boundary forces it (store latency above the whole stream-read time). -/
def lateSchedule : Nat → Nat → Bool := fun _ _ => false

/-- The eight-row input of the spec's summary scenario: three valid Mac rows,
two valid Windows rows, one row with unknown `sourceApp`, one row with empty
`suid`, and one row whose `zid` duplicates the first valid row. -/
def scenarioRows : List Row :=
  [ { suid := "s1", zid := "z1", sourceApp := "Mac OS X" }
  , { suid := "s2", zid := "z2", sourceApp := "mac" }
  , { suid := "s3", zid := "z3", sourceApp := "MacBook" }
  , { suid := "s4", zid := "z4", sourceApp := "Windows 10" }
  , { suid := "s5", zid := "z5", sourceApp := "windows" }
  , { suid := "s6", zid := "z6", sourceApp := "linux" }
  , { suid := "", zid := "z7", sourceApp := "mac" }
  , { suid := "s8", zid := "z1", sourceApp := "mac" } ]

/-- A single valid Mac row, used to build arbitrarily long flood inputs. -/
def floodRow : Row :=
  { suid := "s", zid := "z", sourceApp := "mac" }

/-! Theorems.  General lemmas about the model come first; the claim theorems
follow. -/

theorem complete_batchLen (fail c : _) (st : RunState) :
    (complete fail c st).batchLen = st.batchLen := rfl

theorem complete_batchSucc (fail c : _) (st : RunState) :
    (complete fail c st).batchSucc = st.batchSucc := rfl

theorem complete_outcomes (fail c : _) (st : RunState) :
    (complete fail c st).outcomes = st.outcomes := rfl

theorem complete_calls (fail c : _) (st : RunState) :
    (complete fail c st).calls = st.calls := rfl

theorem complete_logs (fail c : _) (st : RunState) :
    (complete fail c st).logs = st.logs := rfl

theorem complete_processedCount (fail c : _) (st : RunState) :
    (complete fail c st).processedCount = st.processedCount := rfl

theorem complete_updatedCount (fail c : _) (st : RunState) :
    (complete fail c st).updatedCount = st.updatedCount := rfl

theorem flush_outcomes (fail : _) (st : RunState) :
    (flush fail st).outcomes = st.outcomes := rfl

theorem flush_calls (fail : _) (st : RunState) :
    (flush fail st).calls = st.calls := rfl

theorem flush_logs (fail : _) (st : RunState) :
    (flush fail st).logs = st.logs := rfl

theorem flush_processedCount (fail : _) (st : RunState) :
    (flush fail st).processedCount = st.processedCount := rfl

theorem flush_updatedCount (fail : _) (st : RunState) :
    (flush fail st).updatedCount = st.updatedCount + st.batchSucc := rfl

theorem flush_batchLen (fail : _) (st : RunState) : (flush fail st).batchLen = 0 := rfl

theorem flush_batchSucc (fail : _) (st : RunState) : (flush fail st).batchSucc = 0 := rfl

theorem flush_pending (fail : _) (st : RunState) : (flush fail st).pending = [] := by
  simp [flush, complete]

theorem processRow_processedCount (fail : _) (r : Row) (st : RunState) :
    (processRow fail r st).processedCount = st.processedCount := by
  simp only [processRow]
  split
  · rfl
  · split <;> rfl

theorem processRow_updatedCount (fail : _) (r : Row) (st : RunState) :
    (processRow fail r st).updatedCount = st.updatedCount := by
  simp only [processRow]
  split
  · rfl
  · split <;> rfl

theorem processRow_batchLen (fail : _) (r : Row) (st : RunState) :
    (processRow fail r st).batchLen = st.batchLen + 1 := by
  simp only [processRow]
  split
  · rfl
  · split <;> rfl

theorem processRow_devices (fail : _) (r : Row) (st : RunState) :
    (processRow fail r st).processedDevices = st.processedDevices := by
  simp only [processRow]
  split
  · rfl
  · split <;> rfl

theorem processRow_outcomes (fail : _) (r : Row) (st : RunState) :
    ∃ o : Outcome, (processRow fail r st).outcomes = st.outcomes ++ [o] := by
  simp only [processRow]
  split
  · exact ⟨_, rfl⟩
  · split
    · exact ⟨_, rfl⟩
    · exact ⟨_, rfl⟩

theorem processRow_logs (fail : _) (r : Row) (st : RunState) :
    ∀ e ∈ (processRow fail r st).logs, e ∈ st.logs ∨ e.isError = false := by
  simp only [processRow]
  split
  · intro e he
    simp only [List.append_assoc, List.mem_append, List.mem_singleton] at he
    rcases he with h | h | h
    · exact Or.inl h
    · exact Or.inr (by rw [h]; rfl)
    · exact Or.inr (by rw [h]; rfl)
  · split
    · intro e he
      simp only [List.append_assoc, List.mem_append, List.mem_singleton] at he
      rcases he with h | h | h
      · exact Or.inl h
      · exact Or.inr (by rw [h]; rfl)
      · exact Or.inr (by rw [h]; rfl)
    · intro e he
      simp only [List.mem_append, List.mem_singleton] at he
      rcases he with h | h
      · exact Or.inl h
      · exact Or.inr (by rw [h]; rfl)



/-- Outcome-ledger growth of the synchronous row admission. -/
theorem processRow_outcomesLen (fail : _) (r : Row) (st : RunState) :
    (processRow fail r st).outcomes.length = st.outcomes.length + 1 := by
  obtain ⟨o, ho⟩ := processRow_outcomes fail r st
  simp [ho]

/-- The processed counter grows by exactly one per consumed row. -/
theorem step_processedCount (W : Option Nat) (fail : _) (sched : _) (i : Nat) (r : Row)
    (st : RunState) :
    (step W fail sched i r st).processedCount = st.processedCount + 1 := by
  simp only [step]
  split
  · rfl
  · split <;> split <;> (try dsimp only) <;>
      (first
        | rw [flush_processedCount, processRow_processedCount]
        | rw [processRow_processedCount]) <;> rfl

/-- The outcome ledger grows by exactly one per consumed row. -/
theorem step_outcomesLen (W : Option Nat) (fail : _) (sched : _) (i : Nat) (r : Row)
    (st : RunState) :
    (step W fail sched i r st).outcomes.length = st.outcomes.length + 1 := by
  simp only [step]
  split
  · dsimp only
    rw [List.length_append, complete_outcomes]
    rfl
  · split <;> split <;> (try dsimp only) <;>
      (first
        | rw [flush_outcomes, processRow_outcomesLen]
        | rw [processRow_outcomesLen]) <;> rfl

/-- No step of the stream loop emits an error-level log line. -/
theorem step_noErr (W : Option Nat) (fail : _) (sched : _) (i : Nat) (r : Row)
    (st : RunState) (h : ∀ e ∈ st.logs, e.isError = false) :
    ∀ e ∈ (step W fail sched i r st).logs, e.isError = false := by
  simp only [step]
  split
  · intro e he
    simp only [complete_logs, List.mem_append, List.mem_singleton] at he
    rcases he with h1 | h1
    · exact h e h1
    · rw [h1]; rfl
  · split <;> split <;> intro e he <;> (try dsimp only at he) <;>
      (try rw [flush_logs] at he)
    all_goals
      first
      | (rcases List.mem_append.mp he with h1 | h1
         · rcases processRow_logs _ _ _ e h1 with h2 | h2
           · exact h e h2
           · exact h2
         · rw [List.mem_singleton.mp h1]; rfl)
      | (rcases processRow_logs _ _ _ e he with h2 | h2
         · exact h e h2
         · exact h2)

/-- Accounting invariant tying the updated counter and the current window's
will-fulfill count to the ghost outcome ledger. -/
def CountInv (st : RunState) : Prop :=
  st.updatedCount + st.batchSucc = st.outcomes.count Outcome.updated
  ∧ st.batchSucc ≤ st.batchLen

theorem processRow_countInv (fail : _) (r : Row) (st : RunState) (h : CountInv st) :
    CountInv (processRow fail r st) := by
  have c0 : List.count Outcome.updated [Outcome.skippedDuplicate] = 0 := rfl
  have c1 : List.count Outcome.updated [Outcome.skippedNoOs] = 0 := rfl
  have c2 : List.count Outcome.updated [Outcome.failed] = 0 := rfl
  have c3 : List.count Outcome.updated [Outcome.updated] = 1 := rfl
  obtain ⟨h1, h2⟩ := h
  simp only [processRow]
  split
  · refine ⟨?_, ?_⟩ <;> dsimp only
    · rw [List.count_append, c0]; omega
    · omega
  · split
    · refine ⟨?_, ?_⟩ <;> dsimp only
      · rw [List.count_append, c1]; omega
      · omega
    · rcases Bool.eq_false_or_eq_true (fail st.dispatchCount) with hf | hf <;>
        refine ⟨?_, ?_⟩ <;> dsimp only <;>
        simp [hf, List.count_append, c2, c3] <;> omega

theorem flush_countInv (fail : _) (st : RunState) (h : CountInv st) :
    CountInv (flush fail st) := by
  refine ⟨?_, Nat.le_refl 0⟩
  rw [flush_updatedCount, flush_batchSucc, flush_outcomes]
  have := h.1
  omega

theorem step_countInv (W : Option Nat) (fail : _) (sched : _) (i : Nat) (r : Row)
    (st : RunState) (h : CountInv st) :
    CountInv (step W fail sched i r st) := by
  have c0 : List.count Outcome.updated [Outcome.skippedInvalid] = 0 := rfl
  simp only [step]
  split
  · refine ⟨?_, ?_⟩ <;> dsimp only
    · rw [complete_updatedCount, complete_batchSucc, complete_outcomes,
        List.count_append, c0]
      have := h.1
      omega
    · rw [complete_batchSucc, complete_batchLen]
      exact h.2
  · have hrow : CountInv (processRow fail r
        { complete fail (sched i) st with
            processedCount := (complete fail (sched i) st).processedCount + 1 }) :=
      processRow_countInv _ _ _ h
    split <;> split <;>
      first
      | exact flush_countInv _ _ hrow
      | exact hrow

/-- Any property preserved by `step` is preserved by the whole stream loop. -/
theorem runRows_pres (W : Option Nat) (fail : _) (sched : _) (P : RunState → Prop)
    (hstep : ∀ i r st, P st → P (step W fail sched i r st)) :
    ∀ (rows : List Row) (i : Nat) (st : RunState), P st → P (runRows W fail sched rows i st) := by
  intro rows
  induction rows with
  | nil => intro i st h; exact h
  | cons r rs ih =>
      intro i st h
      exact ih (i + 1) _ (hstep i r st h)

theorem runRows_processedCount (W : Option Nat) (fail : _) (sched : _) :
    ∀ (rows : List Row) (i : Nat) (st : RunState),
      (runRows W fail sched rows i st).processedCount = st.processedCount + rows.length := by
  intro rows
  induction rows with
  | nil => intro i st; simp [runRows]
  | cons r rs ih =>
      intro i st
      simp only [runRows]
      rw [ih, step_processedCount, List.length_cons]
      omega

theorem runRows_outcomesLen (W : Option Nat) (fail : _) (sched : _) :
    ∀ (rows : List Row) (i : Nat) (st : RunState),
      (runRows W fail sched rows i st).outcomes.length = st.outcomes.length + rows.length := by
  intro rows
  induction rows with
  | nil => intro i st; simp [runRows]
  | cons r rs ih =>
      intro i st
      simp only [runRows]
      rw [ih, step_outcomesLen, List.length_cons]
      omega

/-- Shape of the row admission when the dedup gate passes and the classifier
returns an OS: the update is dispatched. -/
theorem processRow_dispatch (fail : _) (r : Row) (st : RunState)
    (hd : shouldUpdateItem st.processedDevices r.zid = true)
    (os : String) (hos : getOsFromSourceApp r.sourceApp = some os) :
    processRow fail r st =
      { st with
          logs := st.logs ++ [LogEvent.infoProcessing r.suid r.zid r.sourceApp]
          outcomes := st.outcomes
            ++ [if fail st.dispatchCount then Outcome.failed else Outcome.updated]
          calls := st.calls ++ [{ suid := r.suid, zid := r.zid, osValue := os }]
          pending := st.pending ++ [(st.dispatchCount, r.zid)]
          dispatchCount := st.dispatchCount + 1
          batchLen := st.batchLen + 1
          batchSucc := st.batchSucc + (if fail st.dispatchCount then 0 else 1)
          events := st.events ++ [Ev.start st.dispatchCount] } := by
  simp [processRow, hd, hos]

/-- Shape of the row admission when the dedup gate rejects the row. -/
theorem processRow_dup (fail : _) (r : Row) (st : RunState)
    (hd : shouldUpdateItem st.processedDevices r.zid = false) :
    processRow fail r st =
      { st with
          logs := st.logs ++ [LogEvent.infoProcessing r.suid r.zid r.sourceApp]
            ++ [LogEvent.infoSkipDup r.suid r.zid]
          outcomes := st.outcomes ++ [Outcome.skippedDuplicate]
          batchLen := st.batchLen + 1 } := by
  simp [processRow, hd]

/-- Shape of the row admission when the classifier finds no OS. -/
theorem processRow_noOsMatch (fail : _) (r : Row) (st : RunState)
    (hd : shouldUpdateItem st.processedDevices r.zid = true)
    (hos : getOsFromSourceApp r.sourceApp = none) :
    processRow fail r st =
      { st with
          logs := st.logs ++ [LogEvent.infoProcessing r.suid r.zid r.sourceApp]
            ++ [LogEvent.infoNoOs r.suid r.zid]
          outcomes := st.outcomes ++ [Outcome.skippedNoOs]
          batchLen := st.batchLen + 1 } := by
  simp [processRow, hd, hos]

/-- Settle events contribute no `windowDone` to the trace. -/
theorem settleMap_wdCount (l : List (Nat × String)) :
    (l.map (fun p => Ev.settle p.1)).count Ev.windowDone = 0 := by
  rw [List.count_eq_zero]
  simp

theorem windowFull_none (len : Nat) : windowFull none len = false := rfl

theorem complete_wdCount (fail c : _) (st : RunState) :
    (complete fail c st).events.count Ev.windowDone = st.events.count Ev.windowDone := by
  simp only [complete]
  rw [List.count_append, settleMap_wdCount]
  rfl

theorem processRow_wdCount (fail : _) (r : Row) (st : RunState) :
    (processRow fail r st).events.count Ev.windowDone = st.events.count Ev.windowDone := by
  simp only [processRow]
  split
  · rfl
  · split
    · rfl
    · dsimp only
      rw [List.count_append,
        List.count_eq_zero.mpr (by simp : Ev.windowDone ∉ [Ev.start st.dispatchCount])]
      rfl

/-- With a `NaN` concurrency limit the loop never settles a window
mid-stream. -/
theorem step_none_wdCount (fail sched : _) (i : Nat) (r : Row) (st : RunState) :
    (step none fail sched i r st).events.count Ev.windowDone
      = st.events.count Ev.windowDone := by
  simp only [step, windowFull_none, Bool.false_eq_true, if_false]
  split
  · dsimp only
    rw [complete_wdCount]
  · split
    · dsimp only
      rw [processRow_wdCount, complete_wdCount]
    · rw [processRow_wdCount, complete_wdCount]

/-- With a `NaN` concurrency limit the batch accumulates one task per valid
row and is never cleared. -/
theorem step_none_batchLen (fail sched : _) (i : Nat) (r : Row) (st : RunState) :
    (step none fail sched i r st).batchLen
      = st.batchLen + (if isValidRow r then 1 else 0) := by
  simp only [step, windowFull_none, Bool.false_eq_true, if_false]
  split
  · next h =>
    have hv : isValidRow r = false := by simpa using h
    dsimp only
    rw [complete_batchLen, hv]
    rfl
  · next h =>
    have hv : isValidRow r = true := by simpa using h
    split <;> (try dsimp only) <;> rw [processRow_batchLen, complete_batchLen]

theorem runRows_none_batchLen (fail sched : _) :
    ∀ (rows : List Row) (i : Nat) (st : RunState),
      (runRows none fail sched rows i st).batchLen
        = st.batchLen + (rows.filter (fun r => isValidRow r)).length := by
  intro rows
  induction rows with
  | nil => intro i st; simp [runRows]
  | cons r rs ih =>
      intro i st
      simp only [runRows]
      rw [ih, step_none_batchLen]
      rcases Bool.eq_false_or_eq_true (isValidRow r) with hv | hv <;>
        simp [List.filter_cons, hv] <;> omega

/-- The late schedule settles nothing at a row admission. -/
theorem complete_lateSchedule (fail : _) (i : Nat) (st : RunState) :
    complete fail (lateSchedule i) st = st := by
  cases st
  simp only [complete, lateSchedule, addDevices]
  simp

/-- Under a `NaN` limit and the late schedule, each flood row leaves one more
update outstanding. -/
theorem step_flood (fail : _) (i : Nat) (st : RunState) (h : st.processedDevices = []) :
    (step none fail lateSchedule i floodRow st).pending.length = st.pending.length + 1
    ∧ (step none fail lateSchedule i floodRow st).processedDevices = [] := by
  have hd : shouldUpdateItem
      ({ st with processedCount := st.processedCount + 1 } : RunState).processedDevices
      floodRow.zid = true := by
    dsimp only
    rw [h]
    rfl
  have hos : getOsFromSourceApp floodRow.sourceApp = some "Mac" := rfl
  simp only [step, complete_lateSchedule, windowFull_none, Bool.false_eq_true, if_false]
  rw [if_neg (by decide : ¬((!isValidRow floodRow) = true))]
  rw [processRow_dispatch fail floodRow _ hd "Mac" hos]
  refine ⟨?_, ?_⟩ <;> (repeat' split) <;> simp [h]

theorem runRows_flood (fail : _) :
    ∀ (n i : Nat) (st : RunState), st.processedDevices = [] →
      (runRows none fail lateSchedule (List.replicate n floodRow) i st).pending.length
        = st.pending.length + n
      ∧ (runRows none fail lateSchedule (List.replicate n floodRow) i st).processedDevices
        = [] := by
  intro n
  induction n with
  | zero => intro i st h; simp [runRows]; exact h
  | succ n ih =>
      intro i st h
      rw [List.replicate_succ]
      simp only [runRows]
      obtain ⟨h1, h2⟩ := step_flood fail i st h
      obtain ⟨h3, h4⟩ := ih (i + 1) _ h2
      refine ⟨?_, h4⟩
      rw [h3, h1]
      omega

/-- Membership in the dedup set after one `add`. -/
theorem mem_addDevice (s : List String) (y z : String) :
    z ∈ addDevice s y ↔ z ∈ s ∨ z = y := by
  simp only [addDevice]
  split
  · next hc =>
    have hy : y ∈ s := by simp_all
    constructor
    · intro hz
      exact Or.inl hz
    · rintro (hz | rfl)
      · exact hz
      · exact hy
  · simp

/-- Membership in the dedup set after adding a batch of zids. -/
theorem mem_addDevices (s : List String) (zs : List String) (z : String) :
    z ∈ addDevices s zs ↔ z ∈ s ∨ z ∈ zs := by
  induction zs generalizing s with
  | nil => simp [addDevices]
  | cons y ys ih =>
      simp only [addDevices, List.foldl_cons] at *
      rw [ih (addDevice s y), mem_addDevice]
      simp [or_assoc]

/-- The dedup gate passes exactly the zids not yet in the set. -/
theorem shouldUpdateItem_true_iff (s : List String) (z : String) :
    shouldUpdateItem s z = true ↔ z ∉ s := by
  simp [shouldUpdateItem]

/-- Settling every pending task with no failures empties the pending pool and
absorbs its zids into the dedup set. -/
theorem complete_all_noFail (c : Nat → Bool) (hc : ∀ d, c d = true) (st : RunState) :
    complete noFailures c st
      = { st with
          pending := []
          processedDevices := addDevices st.processedDevices (st.pending.map Prod.snd)
          events := st.events ++ st.pending.map (fun p => Ev.settle p.1) } := by
  have h1 : st.pending.filter (fun p => c p.1) = st.pending :=
    List.filter_eq_self.mpr (fun p _ => hc p.1)
  have h2 : st.pending.filter (fun p => !c p.1) = [] := by
    apply List.filter_eq_nil_iff.mpr
    intro p _
    simp [hc p.1]
  simp only [complete, noFailures, h1, h2, Bool.not_false, List.filter_true]

theorem complete_seqSchedule (i : Nat) (st : RunState) :
    complete noFailures (seqSchedule i) st
      = { st with
          pending := []
          processedDevices := addDevices st.processedDevices (st.pending.map Prod.snd)
          events := st.events ++ st.pending.map (fun p => Ev.settle p.1) } :=
  complete_all_noFail _ (fun _ => rfl) st

/-- Invariant of a failure-free sequential run: every dispatched zid is in the
dedup set or pending, and the dispatched zids are duplicate-free. -/
def SeqInv (st : RunState) : Prop :=
  (∀ z ∈ st.calls.map StoreCall.zid, z ∈ st.processedDevices ∨ z ∈ st.pending.map Prod.snd)
  ∧ (st.calls.map StoreCall.zid).Nodup

theorem flush_seqInv (st : RunState) (h : SeqInv st) : SeqInv (flush noFailures st) := by
  simp only [flush]
  rw [complete_all_noFail _ (fun _ => rfl)]
  refine ⟨?_, h.2⟩
  intro z hz
  rcases h.1 z hz with h1 | h1 <;> dsimp only
  · exact Or.inl ((mem_addDevices _ _ _).mpr (Or.inl h1))
  · exact Or.inl ((mem_addDevices _ _ _).mpr (Or.inr h1))

theorem step_seqInv (W : Option Nat) (i : Nat) (r : Row) (st : RunState) (h : SeqInv st) :
    SeqInv (step W noFailures seqSchedule i r st) := by
  have habs : ∀ z ∈ st.calls.map StoreCall.zid,
      z ∈ addDevices st.processedDevices (st.pending.map Prod.snd) := by
    intro z hz
    rcases h.1 z hz with h1 | h1
    · exact (mem_addDevices _ _ _).mpr (Or.inl h1)
    · exact (mem_addDevices _ _ _).mpr (Or.inr h1)
  simp only [step, complete_seqSchedule]
  split
  · exact ⟨fun z hz => Or.inl (habs z hz), h.2⟩
  · cases hdup :
        shouldUpdateItem (addDevices st.processedDevices (st.pending.map Prod.snd)) r.zid with
    | false =>
        have hdup2 : shouldUpdateItem
            ({ st with
                processedDevices := addDevices st.processedDevices (st.pending.map Prod.snd)
                pending := []
                events := st.events ++ st.pending.map (fun p => Ev.settle p.1)
                processedCount := st.processedCount + 1 } : RunState).processedDevices
            r.zid = false := hdup
        rw [processRow_dup _ _ _ hdup2]
        have hy : SeqInv
            { st with
                processedDevices := addDevices st.processedDevices (st.pending.map Prod.snd)
                pending := []
                events := st.events ++ st.pending.map (fun p => Ev.settle p.1)
                processedCount := st.processedCount + 1
                logs := st.logs ++ [LogEvent.infoProcessing r.suid r.zid r.sourceApp]
                  ++ [LogEvent.infoSkipDup r.suid r.zid]
                outcomes := st.outcomes ++ [Outcome.skippedDuplicate]
                batchLen := st.batchLen + 1 } :=
          ⟨fun z hz => Or.inl (habs z hz), h.2⟩
        repeat' split
        all_goals first
          | exact flush_seqInv _ hy
          | exact hy
    | true =>
        cases hos : getOsFromSourceApp r.sourceApp with
        | none =>
            have hdup2 : shouldUpdateItem
                ({ st with
                    processedDevices := addDevices st.processedDevices (st.pending.map Prod.snd)
                    pending := []
                    events := st.events ++ st.pending.map (fun p => Ev.settle p.1)
                    processedCount := st.processedCount + 1 } : RunState).processedDevices
                r.zid = true := hdup
            rw [processRow_noOsMatch _ _ _ hdup2 hos]
            have hy : SeqInv
                { st with
                    processedDevices := addDevices st.processedDevices (st.pending.map Prod.snd)
                    pending := []
                    events := st.events ++ st.pending.map (fun p => Ev.settle p.1)
                    processedCount := st.processedCount + 1
                    logs := st.logs ++ [LogEvent.infoProcessing r.suid r.zid r.sourceApp]
                      ++ [LogEvent.infoNoOs r.suid r.zid]
                    outcomes := st.outcomes ++ [Outcome.skippedNoOs]
                    batchLen := st.batchLen + 1 } :=
              ⟨fun z hz => Or.inl (habs z hz), h.2⟩
            repeat' split
            all_goals first
              | exact flush_seqInv _ hy
              | exact hy
        | some os =>
            have hdup2 : shouldUpdateItem
                ({ st with
                    processedDevices := addDevices st.processedDevices (st.pending.map Prod.snd)
                    pending := []
                    events := st.events ++ st.pending.map (fun p => Ev.settle p.1)
                    processedCount := st.processedCount + 1 } : RunState).processedDevices
                r.zid = true := hdup
            rw [processRow_dispatch _ _ _ hdup2 os hos]
            have hnotin : r.zid ∉ st.calls.map StoreCall.zid := by
              intro hmem
              exact (shouldUpdateItem_true_iff _ _).mp hdup (habs _ hmem)
            have hy : SeqInv
                { st with
                    processedDevices := addDevices st.processedDevices (st.pending.map Prod.snd)
                    events := (st.events ++ st.pending.map (fun p => Ev.settle p.1))
                      ++ [Ev.start st.dispatchCount]
                    processedCount := st.processedCount + 1
                    logs := st.logs ++ [LogEvent.infoProcessing r.suid r.zid r.sourceApp]
                    outcomes := st.outcomes
                      ++ [if noFailures st.dispatchCount then Outcome.failed else Outcome.updated]
                    calls := st.calls ++ [{ suid := r.suid, zid := r.zid, osValue := os }]
                    pending := [] ++ [(st.dispatchCount, r.zid)]
                    dispatchCount := st.dispatchCount + 1
                    batchLen := st.batchLen + 1
                    batchSucc := st.batchSucc
                      + (if noFailures st.dispatchCount then 0 else 1) } := by
              constructor
              · intro z hz
                rw [List.map_append] at hz
                rcases List.mem_append.mp hz with hz | hz
                · exact Or.inl (habs z hz)
                · right
                  simp only [List.map_cons, List.map_nil, List.mem_singleton] at hz
                  simp [hz]
              · rw [List.map_append]
                simp only [List.map_cons, List.map_nil]
                simp [List.nodup_append, h.2, hnotin]
            repeat' split
            all_goals refine ⟨?_, ?_⟩
            all_goals first
              | exact (flush_seqInv _ hy).1
              | exact (flush_seqInv _ hy).2
              | exact hy.1
              | exact hy.2

/-- Splitting the stream loop over a concatenation of inputs. -/
theorem runRows_append (W : Option Nat) (fail sched : _) :
    ∀ (a b : List Row) (i : Nat) (st : RunState),
      runRows W fail sched (a ++ b) i st
        = runRows W fail sched b (i + a.length) (runRows W fail sched a i st) := by
  intro a
  induction a with
  | nil => intro b i st; simp [runRows]
  | cons r rs ih =>
      intro b i st
      simp only [List.cons_append, runRows, List.length_cons, List.append_eq]
      rw [ih]
      have hn : i + 1 + rs.length = i + (rs.length + 1) := by omega
      rw [hn]

/-- The outcome ledger only ever grows. -/
theorem step_outcomes_grow (W : Option Nat) (fail sched : _) (i : Nat) (r : Row)
    (st : RunState) :
    st.outcomes <+: (step W fail sched i r st).outcomes := by
  obtain ⟨o, ho⟩ := processRow_outcomes fail r
    { complete fail (sched i) st with
        processedCount := (complete fail (sched i) st).processedCount + 1 }
  simp only [step]
  split
  · exact ⟨[Outcome.skippedInvalid], rfl⟩
  · split <;> split <;> (try dsimp only) <;>
      first
      | (rw [flush_outcomes, ho]; exact ⟨[o], rfl⟩)
      | (rw [ho]; exact ⟨[o], rfl⟩)

theorem runRows_outcomes_grow (W : Option Nat) (fail sched : _) :
    ∀ (rows : List Row) (i : Nat) (st : RunState),
      st.outcomes <+: (runRows W fail sched rows i st).outcomes := by
  intro rows
  induction rows with
  | nil => intro i st; exact List.prefix_refl _
  | cons r rs ih =>
      intro i st
      exact (step_outcomes_grow W fail sched i r st).trans (ih (i + 1) _)

theorem processCsvFile_outcomes (W : Option Nat) (fail sched : _) (rows : List Row) :
    (processCsvFile W fail sched rows).outcomes
      = (runRows W fail sched rows 0 initState).outcomes := by
  simp only [processCsvFile]
  split <;> rfl

theorem processCsvFile_calls (W : Option Nat) (fail sched : _) (rows : List Row) :
    (processCsvFile W fail sched rows).calls
      = (runRows W fail sched rows 0 initState).calls := by
  simp only [processCsvFile]
  split <;> rfl

/-- A zid is marked when it is in the dedup set or carried by a pending
update that will settle successfully. -/
def ZidMarked (z : String) (st : RunState) : Prop :=
  z ∈ st.processedDevices ∨ z ∈ st.pending.map Prod.snd

theorem flush_zidMarked (z : String) (st : RunState) (h : ZidMarked z st) :
    ZidMarked z (flush noFailures st) := by
  simp only [flush]
  rw [complete_all_noFail _ (fun _ => rfl)]
  rcases h with h | h
  · exact Or.inl ((mem_addDevices _ _ _).mpr (Or.inl h))
  · exact Or.inl ((mem_addDevices _ _ _).mpr (Or.inr h))

theorem step_zidMarked (W : Option Nat) (i : Nat) (r : Row) (z : String) (st : RunState)
    (h : ZidMarked z st) :
    ZidMarked z (step W noFailures seqSchedule i r st) := by
  have habs : z ∈ addDevices st.processedDevices (st.pending.map Prod.snd) := by
    rcases h with h | h
    · exact (mem_addDevices _ _ _).mpr (Or.inl h)
    · exact (mem_addDevices _ _ _).mpr (Or.inr h)
  simp only [step, complete_seqSchedule]
  split
  · exact Or.inl habs
  · cases hdup :
        shouldUpdateItem (addDevices st.processedDevices (st.pending.map Prod.snd)) r.zid with
    | false =>
        have hdup2 : shouldUpdateItem
            ({ st with
                processedDevices := addDevices st.processedDevices (st.pending.map Prod.snd)
                pending := []
                events := st.events ++ st.pending.map (fun p => Ev.settle p.1)
                processedCount := st.processedCount + 1 } : RunState).processedDevices
            r.zid = false := hdup
        rw [processRow_dup _ _ _ hdup2]
        repeat' split
        all_goals first
          | exact flush_zidMarked _ _ (Or.inl habs)
          | exact Or.inl habs
    | true =>
        have hdup2 : shouldUpdateItem
            ({ st with
                processedDevices := addDevices st.processedDevices (st.pending.map Prod.snd)
                pending := []
                events := st.events ++ st.pending.map (fun p => Ev.settle p.1)
                processedCount := st.processedCount + 1 } : RunState).processedDevices
            r.zid = true := hdup
        cases hos : getOsFromSourceApp r.sourceApp with
        | none =>
            rw [processRow_noOsMatch _ _ _ hdup2 hos]
            repeat' split
            all_goals first
              | exact flush_zidMarked _ _ (Or.inl habs)
              | exact Or.inl habs
        | some os =>
            rw [processRow_dispatch _ _ _ hdup2 os hos]
            repeat' split
            all_goals first
              | exact flush_zidMarked _ _ (Or.inl habs)
              | exact Or.inl habs

/-- Admitting a valid, classified row marks its zid (either it was already
marked, or its update is now pending). -/
theorem step_establishMark (W : Option Nat) (i : Nat) (r : Row) (st : RunState)
    (hv : isValidRow r = true) (hcl : (getOsFromSourceApp r.sourceApp).isSome = true) :
    ZidMarked r.zid (step W noFailures seqSchedule i r st) := by
  simp only [step, complete_seqSchedule]
  split
  · next hvf => simp [hv] at hvf
  · cases hdup :
        shouldUpdateItem (addDevices st.processedDevices (st.pending.map Prod.snd)) r.zid with
    | false =>
        have hmem : r.zid ∈ addDevices st.processedDevices (st.pending.map Prod.snd) := by
          by_contra hn
          rw [(shouldUpdateItem_true_iff _ _).mpr hn] at hdup
          cases hdup
        have hdup2 : shouldUpdateItem
            ({ st with
                processedDevices := addDevices st.processedDevices (st.pending.map Prod.snd)
                pending := []
                events := st.events ++ st.pending.map (fun p => Ev.settle p.1)
                processedCount := st.processedCount + 1 } : RunState).processedDevices
            r.zid = false := hdup
        rw [processRow_dup _ _ _ hdup2]
        repeat' split
        all_goals first
          | exact flush_zidMarked _ _ (Or.inl hmem)
          | exact Or.inl hmem
    | true =>
        have hdup2 : shouldUpdateItem
            ({ st with
                processedDevices := addDevices st.processedDevices (st.pending.map Prod.snd)
                pending := []
                events := st.events ++ st.pending.map (fun p => Ev.settle p.1)
                processedCount := st.processedCount + 1 } : RunState).processedDevices
            r.zid = true := hdup
        cases hos : getOsFromSourceApp r.sourceApp with
        | none => simp [hos] at hcl
        | some os =>
            rw [processRow_dispatch _ _ _ hdup2 os hos]
            have hpend : ZidMarked r.zid
                { st with
                    processedDevices := addDevices st.processedDevices (st.pending.map Prod.snd)
                    events := (st.events ++ st.pending.map (fun p => Ev.settle p.1))
                      ++ [Ev.start st.dispatchCount]
                    processedCount := st.processedCount + 1
                    logs := st.logs ++ [LogEvent.infoProcessing r.suid r.zid r.sourceApp]
                    outcomes := st.outcomes
                      ++ [if noFailures st.dispatchCount then Outcome.failed else Outcome.updated]
                    calls := st.calls ++ [{ suid := r.suid, zid := r.zid, osValue := os }]
                    pending := [] ++ [(st.dispatchCount, r.zid)]
                    dispatchCount := st.dispatchCount + 1
                    batchLen := st.batchLen + 1
                    batchSucc := st.batchSucc
                      + (if noFailures st.dispatchCount then 0 else 1) } :=
              Or.inr (by simp)
            repeat' split
            all_goals first
              | exact flush_zidMarked _ _ hpend
              | exact hpend
              | exact Or.elim (flush_zidMarked _ _ hpend) Or.inl Or.inr
              | exact Or.elim hpend Or.inl Or.inr

/-- A valid row whose zid is already marked is rejected by the dedup gate. -/
theorem step_dup_outcome (W : Option Nat) (i : Nat) (r : Row) (st : RunState)
    (hv : isValidRow r = true) (hm : ZidMarked r.zid st) :
    (step W noFailures seqSchedule i r st).outcomes
      = st.outcomes ++ [Outcome.skippedDuplicate] := by
  have hmem : r.zid ∈ addDevices st.processedDevices (st.pending.map Prod.snd) := by
    rcases hm with h | h
    · exact (mem_addDevices _ _ _).mpr (Or.inl h)
    · exact (mem_addDevices _ _ _).mpr (Or.inr h)
  have hdup : shouldUpdateItem
      (addDevices st.processedDevices (st.pending.map Prod.snd)) r.zid = false := by
    cases hs :
        shouldUpdateItem (addDevices st.processedDevices (st.pending.map Prod.snd)) r.zid with
    | false => rfl
    | true => exact absurd hmem ((shouldUpdateItem_true_iff _ _).mp hs)
  have hdup2 : shouldUpdateItem
      ({ st with
          processedDevices := addDevices st.processedDevices (st.pending.map Prod.snd)
          pending := []
          events := st.events ++ st.pending.map (fun p => Ev.settle p.1)
          processedCount := st.processedCount + 1 } : RunState).processedDevices
      r.zid = false := hdup
  simp only [step, complete_seqSchedule]
  split
  · next hvf => simp [hv] at hvf
  · rw [processRow_dup _ _ _ hdup2]
    repeat' split
    all_goals (try dsimp only)
    all_goals (try rw [flush_outcomes])
    all_goals rfl

/-- In a duplicate-free dispatch history, at most one store call carries a
given zid. -/
theorem nodup_filter_zid_le_one (calls : List StoreCall) (z : String)
    (h : (calls.map StoreCall.zid).Nodup) :
    (calls.filter (fun c => c.zid == z)).length ≤ 1 := by
  have h1 : (calls.filter (fun c => c.zid == z)).length
      = (calls.map StoreCall.zid).count z := by
    rw [← List.countP_eq_length_filter]
    rw [show (calls.map StoreCall.zid).count z
        = List.countP (fun x => x == z) (calls.map StoreCall.zid) from rfl]
    rw [List.countP_map]
    rfl
  rw [h1]
  exact List.nodup_iff_count_le_one.mp h z

/-- Outstanding-task bookkeeping over an extended trace. -/
theorem openTasks_append (a b : List Ev) :
    openTasks (a ++ b) = b.foldl evStep (openTasks a) := by
  simp [openTasks, List.foldl_append]

theorem foldl_erase_length_le :
    ∀ (ds A : List Nat), (ds.foldl (fun acc d => acc.erase d) A).length ≤ A.length := by
  intro ds
  induction ds with
  | nil => intro A; exact Nat.le_refl _
  | cons d ds ih =>
      intro A
      exact (ih (A.erase d)).trans (List.erase_sublist d A).length_le

theorem foldl_erase_cons_of_ne (x : Nat) :
    ∀ (ds xs : List Nat), (∀ d ∈ ds, d ≠ x) →
      ds.foldl (fun acc d => acc.erase d) (x :: xs)
        = x :: ds.foldl (fun acc d => acc.erase d) xs := by
  intro ds
  induction ds with
  | nil => intro xs _; rfl
  | cons d ds ih =>
      intro xs h
      have hdx : d ≠ x := h d (List.mem_cons_self d ds)
      simp only [List.foldl_cons]
      rw [List.erase_cons_tail]
      · exact ih (xs.erase d) (fun e he => h e (List.mem_cons_of_mem d he))
      · simp [Ne.symm hdx]

/-- Erasing the selected elements of a duplicate-free list leaves exactly the
unselected ones. -/
theorem foldl_erase_filter :
    ∀ (l : List Nat) (c : Nat → Bool), l.Nodup →
      (l.filter c).foldl (fun acc d => acc.erase d) l = l.filter (fun d => !c d) := by
  intro l
  induction l with
  | nil => intro c _; rfl
  | cons x xs ih =>
      intro c hnd
      have hx : x ∉ xs := (List.nodup_cons.mp hnd).1
      have hxs : xs.Nodup := (List.nodup_cons.mp hnd).2
      cases hc : c x with
      | true =>
          rw [List.filter_cons_of_pos (by simp [hc]), List.filter_cons_of_neg (by simp [hc])]
          simp only [List.foldl_cons, List.erase_cons_head]
          exact ih c hxs
      | false =>
          rw [List.filter_cons_of_neg (by simp [hc]), List.filter_cons_of_pos (by simp [hc])]
          rw [foldl_erase_cons_of_ne x (xs.filter c) xs
            (fun d hd => fun he => hx (he ▸ (List.mem_filter.mp hd).1))]
          rw [ih c hxs]

theorem map_fst_filter (l : List (Nat × String)) (c : Nat → Bool) :
    (l.filter (fun p => c p.1)).map Prod.fst = (l.map Prod.fst).filter c := by
  induction l with
  | nil => rfl
  | cons p ps ih =>
      cases hc : c p.1 with
      | true =>
          rw [List.filter_cons_of_pos (by simp [hc]), List.map_cons, List.map_cons,
            List.filter_cons_of_pos (by simp [hc]), ih]
      | false =>
          rw [List.filter_cons_of_neg (by simp [hc]), List.map_cons,
            List.filter_cons_of_neg (by simp [hc]), ih]

theorem map_fst_filter_not (l : List (Nat × String)) (c : Nat → Bool) :
    (l.filter (fun p => !c p.1)).map Prod.fst = (l.map Prod.fst).filter (fun d => !c d) :=
  map_fst_filter l (fun d => !c d)

/-- A prefix of a concatenation either stays within the first part or spans
it entirely. -/
theorem prefix_append_cases {α : Type} (p a b : List α) (h : p <+: a ++ b) :
    p <+: a ∨ ∃ s, s <+: b ∧ p = a ++ s := by
  rcases le_or_lt p.length a.length with hle | hlt
  · exact Or.inl (List.prefix_of_prefix_length_le h (List.prefix_append a b) hle)
  · right
    have hap : a <+: p :=
      List.prefix_of_prefix_length_le (List.prefix_append a b) h (Nat.le_of_lt hlt)
    obtain ⟨s, hs⟩ := hap
    refine ⟨s, ?_, hs.symm⟩
    rw [← hs] at h
    exact (List.prefix_append_right_inj a).mp h

theorem prefix_map_decomp {α β : Type} (s : List β) (l : List α) (f : α → β)
    (h : s <+: l.map f) : ∃ t, t <+: l ∧ s = t.map f := by
  refine ⟨l.take s.length, List.take_prefix _ _, ?_⟩
  rw [List.map_take]
  exact List.prefix_iff_eq_take.mp h

/-- A trace ending in `windowDone` that is a prefix of `evs ++ chunk`, where
the chunk contains no `windowDone`, already ends within `evs`. -/
theorem wd_prefix_absorb {evs chunk : List Ev} (hwd : Ev.windowDone ∉ chunk)
    (q : List Ev) (h : q ++ [Ev.windowDone] <+: evs ++ chunk) :
    q ++ [Ev.windowDone] <+: evs := by
  rcases prefix_append_cases _ _ _ h with h1 | ⟨s, hs, heq⟩
  · exact h1
  · rcases s with _ | ⟨e, s'⟩
    · rw [List.append_nil] at heq
      exact heq ▸ List.prefix_refl _
    · exfalso
      have hlast : (q ++ [Ev.windowDone]).getLast? = some Ev.windowDone :=
        List.getLast?_concat _
      rw [heq, List.getLast?_append_of_ne_nil _ (by simp)] at hlast
      exact hwd (hs.subset (List.mem_of_mem_getLast? hlast))

/-- A prefix of a singleton is empty or the singleton. -/
theorem prefix_singleton_cases {α : Type} (s : List α) (x : α) (h : s <+: [x]) :
    s = [] ∨ s = [x] := by
  rcases s with _ | ⟨e, s'⟩
  · exact Or.inl rfl
  · right
    refine h.eq_of_length ?_
    have h1 := h.length_le
    simp only [List.length_singleton] at *
    have h2 : 1 ≤ (e :: s').length := by simp
    omega

/-- Temporal safety of an event trace: no prefix has more than `w` tasks
outstanding, and right after every `windowDone` nothing is outstanding. -/
def TraceOk (w : Nat) (evs : List Ev) : Prop :=
  (∀ p, p <+: evs → (openTasks p).length ≤ w)
  ∧ (∀ q, q ++ [Ev.windowDone] <+: evs → openTasks (q ++ [Ev.windowDone]) = [])

theorem traceOk_nil (w : Nat) : TraceOk w [] := by
  constructor
  · intro p hp
    rw [List.prefix_nil.mp hp]
    exact Nat.zero_le w
  · intro q hq
    have := List.prefix_nil.mp hq
    simp at this

/-- Settle events only shrink the outstanding pool, so they preserve trace
safety. -/
theorem traceOk_settles (w : Nat) (evs : List Ev) (t : List (Nat × String))
    (hlen : (openTasks evs).length ≤ w) (h : TraceOk w evs) :
    TraceOk w (evs ++ t.map (fun p => Ev.settle p.1)) := by
  constructor
  · intro p hp
    rcases prefix_append_cases _ _ _ hp with h1 | ⟨s, hs, rfl⟩
    · exact h.1 p h1
    · obtain ⟨u, _, rfl⟩ := prefix_map_decomp s t _ hs
      rw [openTasks_append]
      have hrw : (u.map (fun p => Ev.settle p.1)).foldl evStep (openTasks evs)
          = (u.map Prod.fst).foldl (fun acc d => acc.erase d) (openTasks evs) := by
        rw [List.foldl_map, List.foldl_map]
        rfl
      rw [hrw]
      exact (foldl_erase_length_le _ _).trans hlen
  · intro q hq
    exact h.2 q (wd_prefix_absorb (by simp) q hq)

/-- A task start within a not-yet-full window preserves trace safety. -/
theorem traceOk_start (w : Nat) (evs : List Ev) (d : Nat)
    (hlen : (openTasks evs).length + 1 ≤ w) (h : TraceOk w evs) :
    TraceOk w (evs ++ [Ev.start d]) := by
  constructor
  · intro p hp
    rcases prefix_append_cases _ _ _ hp with h1 | ⟨s, hs, rfl⟩
    · exact h.1 p h1
    · rcases prefix_singleton_cases s _ hs with rfl | rfl
      · rw [List.append_nil]
        omega
      · rw [openTasks_append]
        simp only [List.foldl_cons, List.foldl_nil, evStep]
        rw [List.length_append]
        simpa using hlen
  · intro q hq
    exact h.2 q (wd_prefix_absorb (by simp) q hq)

/-- A `windowDone` emitted when nothing is outstanding preserves trace
safety. -/
theorem traceOk_wd (w : Nat) (evs : List Ev)
    (hopen : openTasks evs = []) (h : TraceOk w evs) :
    TraceOk w (evs ++ [Ev.windowDone]) := by
  have hofull : openTasks (evs ++ [Ev.windowDone]) = [] := by
    rw [openTasks_append]
    simpa [evStep] using hopen
  constructor
  · intro p hp
    rcases prefix_append_cases _ _ _ hp with h1 | ⟨s, hs, rfl⟩
    · exact h.1 p h1
    · rcases prefix_singleton_cases s _ hs with rfl | rfl
      · rw [List.append_nil]
        rw [hopen]
        exact Nat.zero_le w
      · rw [hofull]
        exact Nat.zero_le w
  · intro q hq
    rcases prefix_append_cases _ _ _ hq with h1 | ⟨s, hs, heq⟩
    · exact h.2 q h1
    · rcases prefix_singleton_cases s _ hs with rfl | rfl
      · rw [List.append_nil] at heq
        exact h.2 q (heq ▸ List.prefix_refl _)
      · rw [heq]
        exact hofull

/-- Outstanding tasks after a settlement round: exactly the unsettled
pending ones, provided the pending dispatch indices are duplicate-free. -/
theorem openTasks_complete (c : Nat → Bool) (evs : List Ev) (pending : List (Nat × String))
    (hA : openTasks evs = pending.map Prod.fst) (hnd : (pending.map Prod.fst).Nodup) :
    openTasks (evs ++ (pending.filter (fun p => c p.1)).map (fun p => Ev.settle p.1))
      = (pending.filter (fun p => !c p.1)).map Prod.fst := by
  rw [openTasks_append, hA]
  have hrw : (pending.filter (fun p => c p.1)).foldl
        (fun acc p => evStep acc (Ev.settle p.1)) (pending.map Prod.fst)
      = ((pending.filter (fun p => c p.1)).map Prod.fst).foldl
        (fun acc d => acc.erase d) (pending.map Prod.fst) := by
    rw [List.foldl_map]
    rfl
  rw [List.foldl_map, hrw, map_fst_filter, foldl_erase_filter _ _ hnd, ← map_fst_filter]

/-- Inductive invariant of the window scheduler with a positive limit `w`. -/
structure Inv3 (w : Nat) (st : RunState) : Prop where
  hopen : openTasks st.events = st.pending.map Prod.fst
  hnd : (st.pending.map Prod.fst).Nodup
  hidx : ∀ d ∈ st.pending.map Prod.fst, d < st.dispatchCount
  hpb : st.pending.length ≤ st.batchLen
  hbw : st.batchLen < w
  htr : TraceOk w st.events

/-- The invariant with the window bound weakened to `≤ w`, as holds right
after a row is admitted and before the full-window check. -/
structure Inv3Mid (w : Nat) (st : RunState) : Prop where
  hopen : openTasks st.events = st.pending.map Prod.fst
  hnd : (st.pending.map Prod.fst).Nodup
  hidx : ∀ d ∈ st.pending.map Prod.fst, d < st.dispatchCount
  hpb : st.pending.length ≤ st.batchLen
  hbw : st.batchLen ≤ w
  htr : TraceOk w st.events

theorem inv3_initState (w : Nat) (hw : 1 ≤ w) : Inv3 w initState := by
  refine ⟨rfl, List.nodup_nil, ?_, Nat.le_refl 0, hw, traceOk_nil w⟩
  intro d hd
  simp [initState] at hd

theorem inv3_complete (w : Nat) (fail c : _) (st : RunState) (h : Inv3 w st) :
    Inv3 w (complete fail c st) := by
  obtain ⟨e1, e2, e3, e4, e5, e6⟩ := h
  simp only [complete]
  refine ⟨?_, ?_, ?_, ?_, e5, ?_⟩ <;> dsimp only
  · exact openTasks_complete c st.events st.pending e1 e2
  · rw [map_fst_filter_not]
    exact e2.filter _
  · intro d hd
    rw [map_fst_filter_not] at hd
    exact e3 d (List.mem_of_mem_filter hd)
  · exact (List.length_filter_le _ _).trans e4
  · refine traceOk_settles w st.events _ ?_ e6
    rw [e1, List.length_map]
    exact e4.trans (Nat.le_of_lt e5)

theorem inv3Mid_processRow (w : Nat) (fail : _) (r : Row) (st : RunState) (h : Inv3 w st) :
    Inv3Mid w (processRow fail r st) := by
  obtain ⟨e1, e2, e3, e4, e5, e6⟩ := h
  simp only [processRow]
  split
  · exact ⟨e1, e2, e3, by dsimp only; omega, by dsimp only; omega, e6⟩
  · split
    · exact ⟨e1, e2, e3, by dsimp only; omega, by dsimp only; omega, e6⟩
    · refine ⟨?_, ?_, ?_, ?_, ?_, ?_⟩ <;> dsimp only
      · rw [openTasks_append]
        simp only [List.foldl_cons, List.foldl_nil, evStep]
        rw [e1, List.map_append]
        rfl
      · rw [List.map_append]
        simp only [List.map_cons, List.map_nil]
        refine List.Nodup.append e2 (List.nodup_singleton _) ?_
        intro x hx hx2
        rw [List.mem_singleton] at hx2
        exact absurd (e3 x hx) (by omega)
      · intro d hd
        rw [List.map_append] at hd
        rcases List.mem_append.mp hd with hd | hd
        · exact (e3 d hd).trans (Nat.lt_succ_self _)
        · simp only [List.map_cons, List.map_nil, List.mem_singleton] at hd
          omega
      · rw [List.length_append]
        simpa using e4
      · omega
      · refine traceOk_start w st.events st.dispatchCount ?_ e6
        rw [e1, List.length_map]
        omega

theorem inv3_flush (w : Nat) (hw : 1 ≤ w) (fail : _) (st : RunState) (h : Inv3Mid w st) :
    Inv3 w (flush fail st) := by
  obtain ⟨e1, e2, e3, e4, e5, e6⟩ := h
  have h0 : openTasks (st.events ++ st.pending.map (fun p => Ev.settle p.1)) = [] := by
    have hoc := openTasks_complete (fun _ => true) st.events st.pending e1 e2
    simpa using hoc
  have htr1 : TraceOk w (st.events ++ st.pending.map (fun p => Ev.settle p.1)) := by
    refine traceOk_settles w st.events st.pending ?_ e6
    rw [e1, List.length_map]
    exact e4.trans e5
  simp only [flush, complete, Bool.not_true, List.filter_false, List.filter_true]
  refine ⟨?_, ?_, ?_, ?_, hw, ?_⟩ <;> dsimp only
  · rw [openTasks_append]
    simp only [List.foldl_cons, List.foldl_nil, evStep]
    rw [h0]
    rfl
  · simp
  · intro d hd
    simp at hd
  · simp
  · exact traceOk_wd w _ h0 htr1

theorem inv3_step (w : Nat) (hw : 1 ≤ w) (fail sched : _) (i : Nat) (r : Row)
    (st : RunState) (h : Inv3 w st) :
    Inv3 w (step (some w) fail sched i r st) := by
  have hc := inv3_complete w fail (sched i) st h
  have hc2 : Inv3 w { complete fail (sched i) st with
      processedCount := (complete fail (sched i) st).processedCount + 1 } :=
    ⟨hc.hopen, hc.hnd, hc.hidx, hc.hpb, hc.hbw, hc.htr⟩
  have hm := inv3Mid_processRow w fail r _ hc2
  simp only [step]
  split
  · exact ⟨hc2.hopen, hc2.hnd, hc2.hidx, hc2.hpb, hc2.hbw, hc2.htr⟩
  · split <;> split
    all_goals first
      | exact
          (let hf := inv3_flush w hw fail _ hm
           ⟨hf.hopen, hf.hnd, hf.hidx, hf.hpb, hf.hbw, hf.htr⟩)
      | (simp only [windowFull, decide_eq_true_eq] at *
         exact ⟨hm.hopen, hm.hnd, hm.hidx, hm.hpb,
           by first | (dsimp only; omega) | omega, hm.htr⟩)

/-- C7: for every `(suid, zid, osTag)`, the Store Update Executor issues one
unconditional partial update keyed by `(partitionKey = suid, sortKey =
"device#" ++ zid)` that sets the `name` attribute to `Desktop Agent (<OsTag>)`
and the `os` attribute to the lowercase form of the tag, and modifies no other
attribute of any item. -/
theorem c7_store_update_contract (envName suid zid osValue : String) (store : Store) :
    (updateItemWithOs envName suid zid osValue).tableName = TABLE_NAME envName
    ∧ (updateItemWithOs envName suid zid osValue).pk = suid
    ∧ (updateItemWithOs envName suid zid osValue).sk = "device#" ++ zid
    ∧ (∀ k, applyUpdate store (updateItemWithOs envName suid zid osValue) k =
        if k = (suid, "device#" ++ zid) then
          { store k with
              name := some ("Desktop Agent (" ++ osValue ++ ")")
              os := some (jsToLower osValue) }
        else store k)
    ∧ (∀ k, (applyUpdate store (updateItemWithOs envName suid zid osValue) k).rest
        = (store k).rest) := by
  refine ⟨rfl, rfl, rfl, fun k => rfl, fun k => ?_⟩
  simp only [applyUpdate, updateItemWithOs]
  split <;> rfl

/-- C8: applying the Store Update Executor twice with identical
`(suid, zid, osTag)` arguments leaves the store in the same final state as
applying it once. -/
theorem c8_update_idempotent (envName suid zid osValue : String) (store : Store) :
    applyUpdate (applyUpdate store (updateItemWithOs envName suid zid osValue))
        (updateItemWithOs envName suid zid osValue)
      = applyUpdate store (updateItemWithOs envName suid zid osValue) := by
  funext k
  simp only [applyUpdate]
  split <;> rfl

/-- C9: the process exits 0 on full completion even when per-record update
tasks failed, and on a missing input file it exits 1 before any store call,
without printing the summary. -/
theorem c9_exit_codes (filePath : String) (W : Option Nat) (fail : Nat → Bool)
    (sched : Nat → Nat → Bool) (rows : List Row) :
    (main false filePath W fail sched rows).exitCode = 1
    ∧ (main false filePath W fail sched rows).calls = []
    ∧ LogEvent.infoSummaryHeader ∉ (main false filePath W fail sched rows).logs
    ∧ (main true filePath W fail sched rows).exitCode = 0 := by
  refine ⟨rfl, rfl, ?_, rfl⟩
  intro hmem
  simp only [main, Bool.not_false, if_pos, List.mem_singleton] at hmem
  exact LogEvent.noConfusion hmem

/-- Witness for C9 at a concrete configuration. -/
theorem c9_exit_codes_witness :
    (main false "x.csv" (some 20) noFailures seqSchedule []).exitCode = 1
    ∧ (main false "x.csv" (some 20) noFailures seqSchedule []).calls = []
    ∧ LogEvent.infoSummaryHeader ∉ (main false "x.csv" (some 20) noFailures seqSchedule []).logs
    ∧ (main true "x.csv" (some 20) noFailures seqSchedule []).exitCode = 0 :=
  c9_exit_codes "x.csv" (some 20) noFailures seqSchedule []

/-- C1 counterexample: two rows share the same `zid`; under a run in which the
first row's update has not settled when the second row is admitted (any store
latency above the row-read latency), the later row is NOT rejected as
`SkippedAlreadyProcessed` — it is dispatched too, and a second store call is
made.  The tracker is only marked after an update completes successfully, not
at admission. -/
theorem c1_counterexample :
    (processCsvFile (some 20) noFailures lateSchedule
        [ { suid := "s1", zid := "zdup", sourceApp := "mac" }
        , { suid := "s2", zid := "zdup", sourceApp := "mac" } ]).outcomes
      = [Outcome.updated, Outcome.updated]
    ∧ (processCsvFile (some 20) noFailures lateSchedule
        [ { suid := "s1", zid := "zdup", sourceApp := "mac" }
        , { suid := "s2", zid := "zdup", sourceApp := "mac" } ]).calls.length = 2 := by
  decide

/-- C2 counterexample: two rows with the same `zid` admitted into the same
window both reach the store: the two update dispatches of one run share the
deviceId `dev7`, so the dispatched zids are not pairwise distinct. -/
theorem c2_counterexample :
    ((processCsvFile (CONCURRENCY_LIMIT none) noFailures lateSchedule
        [ { suid := "a1", zid := "dev7", sourceApp := "windows" }
        , { suid := "a2", zid := "dev7", sourceApp := "windows" } ]).calls.map StoreCall.zid)
      = ["dev7", "dev7"]
    ∧ ¬ List.Pairwise (· ≠ ·)
        ((processCsvFile (CONCURRENCY_LIMIT none) noFailures lateSchedule
          [ { suid := "a1", zid := "dev7", sourceApp := "windows" }
          , { suid := "a2", zid := "dev7", sourceApp := "windows" } ]).calls.map StoreCall.zid) := by
  decide

/-- C5 counterexample: on the spec's eight-row scenario input the summary
reports `processed = 8`, not `7` — every CSV row increments the processed
counter, including the invalid one, and the scenario's own breakdown
(5 updated + 3 skipped) already sums to 8. -/
theorem c5_counterexample :
    (processCsvFile (CONCURRENCY_LIMIT none) noFailures seqSchedule scenarioRows).processedCount = 8
    ∧ (processCsvFile (CONCURRENCY_LIMIT none) noFailures seqSchedule scenarioRows).processedCount ≠ 7 := by
  decide

/-- C5 (amended): on the scenario input, under the schedule in which each
dispatched update settles successfully before the next row is admitted, the
run summary reports `processed = 8` and `updated = 5`, and the per-row outcome
ledger counts exactly one skipped-invalid, one skipped-no-match and one
skipped-duplicate row (the printed summary itself reports only the processed
and updated counters). -/
theorem c5_amended_scenario_summary :
    (processCsvFile (CONCURRENCY_LIMIT none) noFailures seqSchedule scenarioRows).processedCount = 8
    ∧ (processCsvFile (CONCURRENCY_LIMIT none) noFailures seqSchedule scenarioRows).updatedCount = 5
    ∧ (processCsvFile (CONCURRENCY_LIMIT none) noFailures seqSchedule scenarioRows).outcomes.count
        Outcome.updated = 5
    ∧ (processCsvFile (CONCURRENCY_LIMIT none) noFailures seqSchedule scenarioRows).outcomes.count
        Outcome.skippedInvalid = 1
    ∧ (processCsvFile (CONCURRENCY_LIMIT none) noFailures seqSchedule scenarioRows).outcomes.count
        Outcome.skippedNoOs = 1
    ∧ (processCsvFile (CONCURRENCY_LIMIT none) noFailures seqSchedule scenarioRows).outcomes.count
        Outcome.skippedDuplicate = 1 := by
  decide

/-- C6 counterexample: the final clause of the claim — a `none` classification
yields outcome `SkippedNoOsMatch` — fails when the row's `zid` is already
marked: the dedup check precedes classification in `processRow`, so the second
row below (sourceApp `linux`, containing neither substring) is recorded as
`SkippedAlreadyProcessed`, not `SkippedNoOsMatch`. -/
theorem c6_counterexample :
    getOsFromSourceApp "linux" = none
    ∧ (processCsvFile (some 20) noFailures seqSchedule
        [ { suid := "s", zid := "z", sourceApp := "mac" }
        , { suid := "t", zid := "z", sourceApp := "linux" } ]).outcomes
      = [Outcome.updated, Outcome.skippedDuplicate] := by
  decide

/-- C6 (amended): the OS Classifier returns `Mac` whenever the lowercased
string contains `mac` (hence Mac wins when both substrings occur), `Windows`
when it contains `windows` but not `mac`, and `none` otherwise; a `none`
result makes no store call, and its outcome is `SkippedNoOsMatch` when the
row's `zid` is not already marked processed — when it is, the dedup gate fires
first and the outcome is `SkippedAlreadyProcessed`. -/
theorem c6_amended_classifier :
    (∀ s : String, "mac".data <:+: (jsToLower s).data →
      getOsFromSourceApp s = some "Mac")
    ∧ (∀ s : String, ¬ "mac".data <:+: (jsToLower s).data →
        "windows".data <:+: (jsToLower s).data →
        getOsFromSourceApp s = some "Windows")
    ∧ (∀ s : String, ¬ "mac".data <:+: (jsToLower s).data →
        ¬ "windows".data <:+: (jsToLower s).data →
        getOsFromSourceApp s = none)
    ∧ (∀ (fail : Nat → Bool) (st : RunState) (r : Row),
        shouldUpdateItem st.processedDevices r.zid = true →
        getOsFromSourceApp r.sourceApp = none →
        (processRow fail r st).calls = st.calls
        ∧ (processRow fail r st).outcomes = st.outcomes ++ [Outcome.skippedNoOs]
        ∧ (processRow fail r st).pending = st.pending)
    ∧ (∀ (fail : Nat → Bool) (st : RunState) (r : Row),
        shouldUpdateItem st.processedDevices r.zid = false →
        (processRow fail r st).calls = st.calls
        ∧ (processRow fail r st).outcomes = st.outcomes ++ [Outcome.skippedDuplicate]
        ∧ (processRow fail r st).pending = st.pending) := by
  refine ⟨?_, ?_, ?_, ?_, ?_⟩
  · intro s h
    simp [getOsFromSourceApp, jsIncludes, h]
  · intro s h1 h2
    simp [getOsFromSourceApp, jsIncludes, h1, h2]
  · intro s h1 h2
    simp [getOsFromSourceApp, jsIncludes, h1, h2]
  · intro fail st r h1 h2
    refine ⟨?_, ?_, ?_⟩ <;> simp [processRow, h1, h2]
  · intro fail st r h1
    refine ⟨?_, ?_, ?_⟩ <;> simp [processRow, h1]

/-- Witness for C6 (amended) at concrete inputs: `Mac OS` classifies as Mac,
`windows and mac` classifies as Mac (rule order), and an unmatched valid row
with fresh `zid` gets outcome `SkippedNoOsMatch` with no store call. -/
theorem c6_amended_classifier_witness :
    getOsFromSourceApp "Mac OS" = some "Mac"
    ∧ getOsFromSourceApp "windows and mac" = some "Mac"
    ∧ (processRow noFailures { suid := "s", zid := "z", sourceApp := "LINUX" } initState).calls
        = initState.calls
    ∧ (processRow noFailures { suid := "s", zid := "z", sourceApp := "LINUX" } initState).outcomes
        = initState.outcomes ++ [Outcome.skippedNoOs] :=
  ⟨c6_amended_classifier.1 "Mac OS" (by decide),
   c6_amended_classifier.1 "windows and mac" (by decide),
   (c6_amended_classifier.2.2.2.1 noFailures initState
      { suid := "s", zid := "z", sourceApp := "LINUX" } (by decide) (by decide)).1,
   (c6_amended_classifier.2.2.2.1 noFailures initState
      { suid := "s", zid := "z", sourceApp := "LINUX" } (by decide) (by decide)).2.1⟩

/-- C4 counterexample: a window in which the first task's update rejects. The
complete log stream of the run contains no line recording the failure (the
claim says the failure is caught, logged and recorded as `Failed`; the
settled-window fold only counts fulfilled results and logs nothing), and the
printed summary carries no failed counter — the failure is visible only as
the updated count staying at 1. -/
theorem c4_counterexample :
    (processCsvFile (some 20) (fun d => d == 0) lateSchedule
        [ { suid := "s1", zid := "z1", sourceApp := "mac" }
        , { suid := "s2", zid := "z2", sourceApp := "mac" } ]).outcomes
      = [Outcome.failed, Outcome.updated]
    ∧ (processCsvFile (some 20) (fun d => d == 0) lateSchedule
        [ { suid := "s1", zid := "z1", sourceApp := "mac" }
        , { suid := "s2", zid := "z2", sourceApp := "mac" } ]).logs
      = [ LogEvent.infoProcessing "s1" "z1" "mac"
        , LogEvent.infoProcessing "s2" "z2" "mac"
        , LogEvent.infoCsvComplete 2 1 ]
    ∧ (processCsvFile (some 20) (fun d => d == 0) lateSchedule
        [ { suid := "s1", zid := "z1", sourceApp := "mac" }
        , { suid := "s2", zid := "z2", sourceApp := "mac" } ]).updatedCount = 1
    ∧ (processCsvFile (some 20) (fun d => d == 0) lateSchedule
        [ { suid := "s1", zid := "z1", sourceApp := "mac" }
        , { suid := "s2", zid := "z2", sourceApp := "mac" } ]).processedCount = 2 := by
  decide

/-- C4 (amended): an individual update task's failure is caught by the
settle-all window wait and silently excluded from the updated count — it is
not logged and no failed counter is recorded — and it neither cancels nor
prevents the completion of the other tasks, nor blocks later windows, nor
aborts the stream or the run: for every input, failure oracle and settlement
schedule, the run completes with every row counted and given exactly one
settled outcome, no error-level log line is emitted, and the updated counter
equals the number of fulfilled `updated` outcomes. -/
theorem c4_amended_failure_isolation (W : Option Nat) (fail : Nat → Bool)
    (sched : Nat → Nat → Bool) (rows : List Row) :
    (processCsvFile W fail sched rows).processedCount = rows.length
    ∧ (processCsvFile W fail sched rows).outcomes.length = rows.length
    ∧ (∀ e ∈ (processCsvFile W fail sched rows).logs, e.isError = false)
    ∧ (processCsvFile W fail sched rows).updatedCount
        = (processCsvFile W fail sched rows).outcomes.count Outcome.updated := by
  have hpc := runRows_processedCount W fail sched rows 0 initState
  have hol := runRows_outcomesLen W fail sched rows 0 initState
  have hne : ∀ e ∈ (runRows W fail sched rows 0 initState).logs, e.isError = false := by
    refine runRows_pres W fail sched _ (fun i r st h => step_noErr W fail sched i r st h)
      rows 0 initState ?_
    intro e he
    simp [initState] at he
  have hci : CountInv (runRows W fail sched rows 0 initState) := by
    refine runRows_pres W fail sched CountInv
      (fun i r st h => step_countInv W fail sched i r st h) rows 0 initState ?_
    exact ⟨rfl, Nat.le_refl 0⟩
  simp only [processCsvFile]
  split
  · refine ⟨?_, ?_, ?_, ?_⟩ <;> dsimp only
    · rw [flush_processedCount, hpc]; simp [initState]
    · rw [flush_outcomes, hol]; simp [initState]
    · intro e he
      rw [flush_logs] at he
      rcases List.mem_append.mp he with h1 | h1
      · exact hne e h1
      · rw [List.mem_singleton.mp h1]; rfl
    · rw [flush_updatedCount, flush_outcomes]
      have := hci.1
      omega
  · next hb =>
    have hbz : (runRows W fail sched rows 0 initState).batchLen = 0 := by omega
    have hsz : (runRows W fail sched rows 0 initState).batchSucc = 0 := by
      have := hci.2
      omega
    refine ⟨?_, ?_, ?_, ?_⟩ <;> dsimp only
    · rw [hpc]; simp [initState]
    · rw [hol]; simp [initState]
    · intro e he
      rcases List.mem_append.mp he with h1 | h1
      · exact hne e h1
      · rw [List.mem_singleton.mp h1]; rfl
    · have := hci.1
      omega

/-- Witness for C4 (amended) at a concrete failing run: two valid rows in one
window, the first task's update rejects. -/
theorem c4_amended_failure_isolation_witness :
    (processCsvFile (some 20) (fun d => d == 0) lateSchedule
        [ { suid := "s1", zid := "z1", sourceApp := "mac" }
        , { suid := "s2", zid := "z2", sourceApp := "mac" } ]).processedCount = 2
    ∧ (processCsvFile (some 20) (fun d => d == 0) lateSchedule
        [ { suid := "s1", zid := "z1", sourceApp := "mac" }
        , { suid := "s2", zid := "z2", sourceApp := "mac" } ]).outcomes.length = 2
    ∧ (∀ e ∈ (processCsvFile (some 20) (fun d => d == 0) lateSchedule
        [ { suid := "s1", zid := "z1", sourceApp := "mac" }
        , { suid := "s2", zid := "z2", sourceApp := "mac" } ]).logs, e.isError = false)
    ∧ (processCsvFile (some 20) (fun d => d == 0) lateSchedule
        [ { suid := "s1", zid := "z1", sourceApp := "mac" }
        , { suid := "s2", zid := "z2", sourceApp := "mac" } ]).updatedCount
        = (processCsvFile (some 20) (fun d => d == 0) lateSchedule
        [ { suid := "s1", zid := "z1", sourceApp := "mac" }
        , { suid := "s2", zid := "z2", sourceApp := "mac" } ]).outcomes.count Outcome.updated :=
  c4_amended_failure_isolation (some 20) (fun d => d == 0) lateSchedule
    [ { suid := "s1", zid := "z1", sourceApp := "mac" }
    , { suid := "s2", zid := "z2", sourceApp := "mac" } ]

/-- C10: when the `CONCURRENCY_LIMIT` environment variable is a non-numeric
string, `parseInt` yields `NaN`, the window-full comparison
`batch.length >= CONCURRENCY_LIMIT` is false at every length, so no window is
settled mid-stream, every eligible row's update task is started and the batch
is only awaited at the final flush: the number of concurrently outstanding
store-update tasks is bounded only by the input size (for every `n` there is
an input and a settlement schedule leaving `n` updates outstanding at stream
end). -/
theorem c10_nan_limit_unbounded :
    (∀ s : String, s ≠ "" → s.data.takeWhile Char.isDigit = [] →
      CONCURRENCY_LIMIT (some s) = none)
    ∧ (∀ len : Nat, windowFull none len = false)
    ∧ (∀ (fail : Nat → Bool) (sched : Nat → Nat → Bool) (rows : List Row),
        (runRows none fail sched rows 0 initState).events.count Ev.windowDone = 0)
    ∧ (∀ (fail : Nat → Bool) (sched : Nat → Nat → Bool) (rows : List Row),
        (runRows none fail sched rows 0 initState).batchLen
          = (rows.filter (fun r => isValidRow r)).length)
    ∧ (∀ n : Nat,
        (runRows none noFailures lateSchedule (List.replicate n floodRow) 0
          initState).pending.length = n) := by
  refine ⟨?_, ?_, ?_, ?_, ?_⟩
  · intro s hne hdig
    simp [CONCURRENCY_LIMIT, jsOr, hne, jsParseInt, hdig]
  · intro len
    rfl
  · intro fail sched rows
    refine runRows_pres none fail sched
      (fun st => st.events.count Ev.windowDone = 0)
      (fun i r st h => by dsimp only; rw [step_none_wdCount]; exact h) rows 0 initState ?_
    simp [initState]
  · intro fail sched rows
    rw [runRows_none_batchLen]
    simp [initState]
  · intro n
    have := runRows_flood noFailures n 0 initState (by simp [initState])
    simpa [initState] using this.1

/-- Witness for C10 at `CONCURRENCY_LIMIT = "abc"` and a three-row flood. -/
theorem c10_nan_limit_unbounded_witness :
    CONCURRENCY_LIMIT (some "abc") = none
    ∧ windowFull none 1000000 = false
    ∧ (runRows none noFailures lateSchedule (List.replicate 3 floodRow) 0
        initState).pending.length = 3 :=
  ⟨c10_nan_limit_unbounded.1 "abc" (by decide) (by decide),
   c10_nan_limit_unbounded.2.1 1000000,
   c10_nan_limit_unbounded.2.2.2.2 3⟩

/-- C2 (amended): dedup is effective only for updates that settled
successfully before the later duplicate was admitted; under the schedule in
which every dispatched update settles successfully before the next row is
admitted, no two store-update dispatches of a run share a deviceId. -/
theorem c2_amended_no_dup_dispatch (W : Option Nat) (rows : List Row) :
    List.Pairwise (fun a b => a ≠ b)
      ((processCsvFile W noFailures seqSchedule rows).calls.map StoreCall.zid) := by
  have hinv : SeqInv (runRows W noFailures seqSchedule rows 0 initState) := by
    refine runRows_pres W noFailures seqSchedule SeqInv
      (fun i r st h => step_seqInv W i r st h) rows 0 initState ?_
    exact ⟨by simp [initState], by simp [initState]⟩
  rw [processCsvFile_calls]
  exact hinv.2

/-- C1 (amended): the dedup tracker is marked only once a row's update has
settled successfully, not at admission; consequently a later row with the
same zid is rejected as `SkippedAlreadyProcessed` in the runs where the
earlier update completed successfully before the later row was admitted.
Under that sequential no-failure schedule, any valid row preceded by a valid
classified row with the same zid is recorded as `SkippedAlreadyProcessed`,
and at most one store call of the whole run carries that zid. -/
theorem c1_amended_dedup (W : Option Nat) (pre mid post : List Row) (r₁ r₂ : Row)
    (h1 : isValidRow r₁ = true) (h2 : (getOsFromSourceApp r₁.sourceApp).isSome = true)
    (h3 : isValidRow r₂ = true) (h4 : r₂.zid = r₁.zid) :
    (processCsvFile W noFailures seqSchedule (pre ++ r₁ :: (mid ++ r₂ :: post))).outcomes.get?
        (pre.length + 1 + mid.length) = some Outcome.skippedDuplicate
    ∧ ((processCsvFile W noFailures seqSchedule (pre ++ r₁ :: (mid ++ r₂ :: post))).calls.filter
        (fun c => c.zid == r₁.zid)).length ≤ 1 := by
  constructor
  · rw [processCsvFile_outcomes]
    rw [runRows_append, Nat.zero_add]
    simp only [runRows]
    rw [runRows_append]
    simp only [runRows]
    have hm1 : ZidMarked r₁.zid
        (step W noFailures seqSchedule pre.length r₁
          (runRows W noFailures seqSchedule pre 0 initState)) :=
      step_establishMark W pre.length r₁ _ h1 h2
    have hm2 : ZidMarked r₁.zid
        (runRows W noFailures seqSchedule mid (pre.length + 1)
          (step W noFailures seqSchedule pre.length r₁
            (runRows W noFailures seqSchedule pre 0 initState))) :=
      runRows_pres W noFailures seqSchedule (ZidMarked r₁.zid)
        (fun i r st h => step_zidMarked W i r r₁.zid st h) mid (pre.length + 1) _ hm1
    have hm2x : ZidMarked r₂.zid
        (runRows W noFailures seqSchedule mid (pre.length + 1)
          (step W noFailures seqSchedule pre.length r₁
            (runRows W noFailures seqSchedule pre 0 initState))) := by
      rw [h4]
      exact hm2
    have hdupstep := step_dup_outcome W (pre.length + 1 + mid.length) r₂ _ h3 hm2x
    obtain ⟨t, ht⟩ := runRows_outcomes_grow W noFailures seqSchedule post
      (pre.length + 1 + mid.length + 1)
      (step W noFailures seqSchedule (pre.length + 1 + mid.length) r₂
        (runRows W noFailures seqSchedule mid (pre.length + 1)
          (step W noFailures seqSchedule pre.length r₁
            (runRows W noFailures seqSchedule pre 0 initState))))
    rw [← ht, hdupstep]
    have hlen : (runRows W noFailures seqSchedule mid (pre.length + 1)
        (step W noFailures seqSchedule pre.length r₁
          (runRows W noFailures seqSchedule pre 0 initState))).outcomes.length
        = pre.length + 1 + mid.length := by
      rw [runRows_outcomesLen, step_outcomesLen, runRows_outcomesLen]
      simp [initState]
    have hidx : pre.length + 1 + mid.length
        < ((runRows W noFailures seqSchedule mid (pre.length + 1)
            (step W noFailures seqSchedule pre.length r₁
              (runRows W noFailures seqSchedule pre 0 initState))).outcomes
          ++ [Outcome.skippedDuplicate]).length := by
      simp [hlen]
    rw [List.get?_append hidx]
    rw [← hlen]
    exact List.get?_concat_length _ _
  · have hinv : SeqInv (runRows W noFailures seqSchedule
        (pre ++ r₁ :: (mid ++ r₂ :: post)) 0 initState) := by
      refine runRows_pres W noFailures seqSchedule SeqInv
        (fun i r st h => step_seqInv W i r st h) _ 0 initState ?_
      exact ⟨by simp [initState], by simp [initState]⟩
    rw [processCsvFile_calls]
    exact nodup_filter_zid_le_one _ _ hinv.2

/-- Witness for C1 (amended): two adjacent rows sharing zid `z`, the second
rejected as a duplicate, with a single store call for `z` in the run. -/
theorem c1_amended_dedup_witness :
    (processCsvFile (some 20) noFailures seqSchedule
        ([] ++ { suid := "s", zid := "z", sourceApp := "mac" } :: ([]
          ++ { suid := "t", zid := "z", sourceApp := "windows" } :: []))).outcomes.get? 1
      = some Outcome.skippedDuplicate
    ∧ ((processCsvFile (some 20) noFailures seqSchedule
        ([] ++ { suid := "s", zid := "z", sourceApp := "mac" } :: ([]
          ++ { suid := "t", zid := "z", sourceApp := "windows" } :: []))).calls.filter
        (fun c => c.zid == "z")).length ≤ 1 :=
  c1_amended_dedup (some 20) [] [] []
    { suid := "s", zid := "z", sourceApp := "mac" }
    { suid := "t", zid := "z", sourceApp := "windows" }
    (by decide) (by decide) (by decide) rfl

/-- C3: with window size `w = CONCURRENCY_LIMIT ≥ 1` (default 20), at no
point of any run are more than `w` store-update tasks concurrently
outstanding (every prefix of the event trace has at most `w` open tasks), no
task of a later window starts before every task of the previous window has
settled (immediately after each `windowDone`, nothing is outstanding), and
the partial final window is settled the same way at stream end (at run end
nothing is outstanding). -/
theorem c3_window_bound (w : Nat) (hw : 1 ≤ w) (fail : Nat → Bool)
    (sched : Nat → Nat → Bool) (rows : List Row) :
    (∀ p, p <+: (processCsvFile (some w) fail sched rows).events →
      (openTasks p).length ≤ w)
    ∧ (∀ q, q ++ [Ev.windowDone] <+: (processCsvFile (some w) fail sched rows).events →
      openTasks (q ++ [Ev.windowDone]) = [])
    ∧ openTasks (processCsvFile (some w) fail sched rows).events = []
    ∧ CONCURRENCY_LIMIT none = some 20 := by
  have hrun : Inv3 w (runRows (some w) fail sched rows 0 initState) :=
    runRows_pres (some w) fail sched (Inv3 w)
      (fun i r st h => inv3_step w hw fail sched i r st h) rows 0 initState
      (inv3_initState w hw)
  simp only [processCsvFile]
  split
  · have hmid : Inv3Mid w (runRows (some w) fail sched rows 0 initState) :=
      ⟨hrun.hopen, hrun.hnd, hrun.hidx, hrun.hpb, Nat.le_of_lt hrun.hbw, hrun.htr⟩
    have hf := inv3_flush w hw fail _ hmid
    refine ⟨?_, ?_, ?_, rfl⟩
    · intro p hp
      exact hf.htr.1 p hp
    · intro q hq
      exact hf.htr.2 q hq
    · have hop := hf.hopen
      rw [flush_pending] at hop
      simpa using hop
  · next hb =>
    have hp0 : (runRows (some w) fail sched rows 0 initState).pending = [] := by
      have h1 := hrun.hpb
      have h2 : (runRows (some w) fail sched rows 0 initState).batchLen = 0 := by omega
      rw [h2] at h1
      exact List.eq_nil_of_length_eq_zero (Nat.le_zero.mp h1)
    refine ⟨?_, ?_, ?_, rfl⟩
    · intro p hp
      exact hrun.htr.1 p hp
    · intro q hq
      exact hrun.htr.2 q hq
    · have hop := hrun.hopen
      rw [hp0] at hop
      simpa using hop

/-- Witness for C3 at the default window size 20 on a one-row input. -/
theorem c3_window_bound_witness :
    (openTasks [Ev.start 0]).length ≤ 20
    ∧ openTasks (processCsvFile (some 20) noFailures lateSchedule [floodRow]).events = [] :=
  ⟨(c3_window_bound 20 (by decide) noFailures lateSchedule [floodRow]).1 [Ev.start 0]
      ⟨[Ev.settle 0, Ev.windowDone], by decide⟩,
   (c3_window_bound 20 (by decide) noFailures lateSchedule [floodRow]).2.2.1⟩

end DeviceReproc
